import Mathlib

/-!
Shallow embedding of the image-ingestion route of the r2-demo repository
(`src/app/routes/images.tsx` and `src/migrations/0000_create_images_table.sql`).

The `action` handler drives one upload attempt: derive a store key from the
current timestamp and the sanitized filename, `put` the blob into the object
store, re-fetch it from its public URL, ask the AI service for a description
(falling back to a sentinel on failure), and insert a metadata row.  An inner
`catch` compensates by deleting the blob (when `key` is defined) and rethrows;
an outer `catch` converts the error into a 500 response.  The `loader` reads
all rows ordered by `created_at` descending and degrades to an empty list with
a message when the read fails.

External effects (object store, fetch, AI, database) are modelled by an
environment of per-call outcomes, and the handler is a pure function from that
environment to a result together with a trace of the calls it made and the
final contents of the object store and database.
-/

namespace R2Demo

/-- JavaScript `\s` character class (the whitespace characters recognised by
the regex in `image.name.replace(/\s+/g, "-")`). -/
def isWs (c : Char) : Bool :=
  (9 ≤ c.toNat && c.toNat ≤ 13) || c.toNat = 32 || c.toNat = 0xa0 ||
  c.toNat = 0x1680 || (0x2000 ≤ c.toNat && c.toNat ≤ 0x200a) ||
  c.toNat = 0x2028 || c.toNat = 0x2029 || c.toNat = 0x202f ||
  c.toNat = 0x205f || c.toNat = 0x3000 || c.toNat = 0xfeff

/-- `replace(/\s+/g, "-")` on a character list: each maximal run of
whitespace characters becomes a single hyphen. -/
def sanitizeChars : List Char → List Char
  | [] => []
  | c :: cs =>
    if isWs c then '-' :: sanitizeChars (cs.dropWhile isWs)
    else c :: sanitizeChars cs
termination_by l => l.length
decreasing_by
  · exact Nat.lt_succ_of_le (List.Sublist.length_le (List.dropWhile_sublist isWs))
  · exact Nat.lt_succ_self cs.length

/-- `name.replace(/\s+/g, "-")`. -/
def sanitize (s : String) : String :=
  ⟨sanitizeChars s.data⟩

/-- Two character lists that differ only in the kind or the number of the
whitespace characters making up each whitespace run. -/
inductive WsEquiv : List Char → List Char → Prop
  | nil : WsEquiv [] []
  | cons {c : Char} {s t : List Char} : isWs c = false → WsEquiv s t →
      WsEquiv (c :: s) (c :: t)
  | run (u v : List Char) {s t : List Char} : u ≠ [] → v ≠ [] →
      (∀ c ∈ u, isWs c = true) → (∀ c ∈ v, isWs c = true) →
      WsEquiv s t → WsEquiv (u ++ s) (v ++ t)

/-- Big-endian decimal digits of `n` (empty for `0`). -/
def decDigits : Nat → List Nat
  | 0 => []
  | n + 1 => decDigits ((n + 1) / 10) ++ [(n + 1) % 10]
decreasing_by
  exact Nat.div_lt_self (Nat.succ_pos n) (by decide)

/-- Value of a big-endian decimal digit list. -/
def ofDigits (l : List Nat) : Nat :=
  l.foldl (fun a d => 10 * a + d) 0

/-- JavaScript number-to-string conversion for a nonnegative integer, as used
by the template literal interpolating `Date.now()`. -/
def natToString (n : Nat) : String :=
  if n = 0 then "0" else ⟨(decDigits n).map Nat.digitChar⟩

/-- `` `images/${Date.now()}-${image.name.replace(/\s+/g, "-")}` ``. -/
def mkKey (now : Nat) (name : String) : String :=
  "images/" ++ natToString now ++ "-" ++ sanitize name

/-- The uploaded `File`: original filename, MIME type and raw bytes.  The
handler never inspects the bytes (they are forwarded to `put` opaquely). -/
structure FileInput where
  name : String
  contentType : String
  bytes : List Nat

/-- Outcomes of the external calls made during one ingestion attempt.
`putOk`: whether `R2.put` succeeds.  `fetchResult`: `.error` if `fetch` (or
reading the body) throws, `.ok b` with `b` the `response.ok` flag otherwise.
`aiResult`: `.ok d` if `AI.run` returns a description `d`, `.error` if it
throws.  `insertResult`: `.ok b` with `b` the `success` flag of the D1
statement, `.error` if it throws.  `deleteOk`: whether `R2.delete` succeeds. -/
structure Env where
  putOk : Bool
  fetchResult : Except Unit Bool
  aiResult : Except Unit String
  insertResult : Except Unit Bool
  deleteOk : Bool
  publicBase : String

/-- Trace of the calls the handler issued, plus the final contents of the two
stores.  `insertCalls` records every `INSERT` invocation (url, name,
description); `db` holds only the rows actually persisted. -/
structure St where
  putCalls : List String
  deleteCalls : List String
  insertCalls : List (String × String × String)
  store : List String
  db : List (String × String × String)
deriving DecidableEq

/-- Trace before the attempt performs any call. -/
def St.empty : St := ⟨[], [], [], [], []⟩

/-- Errors the inner `try` can propagate to the outer handler. -/
inductive ActionError
  | missingFile
  | putFailed
  | fetchThrew
  | fetchNotOk
  | insertThrew
  | insertFailed
deriving DecidableEq

/-- `json({success: true})` or `json({error}, {status: 500})`. -/
abbrev ActionResult := Except ActionError Unit

/-- `try { await R2.delete(key) } catch (deleteError) { console.error(...) }`:
the delete is attempted, its failure is swallowed. -/
def runDelete (env : Env) (st : St) (key : String) : St :=
  let st := { st with deleteCalls := st.deleteCalls ++ [key] }
  if env.deleteOk then { st with store := st.store.erase key } else st

/-- The `action` handler of `src/app/routes/images.tsx` for one request.
`input` is `formData.get("image")`: `none` when no file was submitted (the
subsequent `image.name` access throws before `key` is assigned). -/
def action (env : Env) (input : Option FileInput) (now : Nat) :
    ActionResult × St :=
  match input with
  | none => (.error .missingFile, St.empty)
  | some image =>
    let key := mkKey now image.name
    let st := { St.empty with putCalls := [key] }
    if env.putOk then
      let st := { st with store := st.store ++ [key] }
      let url := env.publicBase ++ "/" ++ key
      match env.fetchResult with
      | .error _ => (.error .fetchThrew, runDelete env st key)
      | .ok false => (.error .fetchNotOk, runDelete env st key)
      | .ok true =>
        let description :=
          match env.aiResult with
          | .ok d => d
          | .error _ => "Description unavailable"
        let st := { st with insertCalls := [(url, image.name, description)] }
        match env.insertResult with
        | .error _ => (.error .insertThrew, runDelete env st key)
        | .ok true => (.ok (), { st with db := [(url, image.name, description)] })
        | .ok false => (.error .insertFailed, runDelete env st key)
    else
      (.error .putFailed, runDelete env st key)

/-- A row of the `images` table. -/
structure Image where
  id : Nat
  url : String
  name : String
  description : Option String
  created_at : Nat
deriving DecidableEq

/-- `SELECT * FROM images ORDER BY created_at DESC`. -/
def listAll (db : List Image) : List Image :=
  db.insertionSort (fun a b => b.created_at ≤ a.created_at)

inductive LoaderStatus
  | success
  | error
deriving DecidableEq

/-- The JSON payload the `loader` returns. -/
structure LoaderResult where
  status : LoaderStatus
  images : List Image
  message : Option String
deriving DecidableEq

/-- The `loader` of `src/app/routes/images.tsx`.  `table` is the outcome of
the D1 read: `.ok rows` yields the rows (the query orders them), `.error m`
models a throw, where `m` is `some msg` for an `Error` with message `msg` and
`none` for a non-`Error` value. -/
def loader (table : Except (Option String) (List Image)) : LoaderResult :=
  match table with
  | .ok rows => ⟨.success, listAll rows, none⟩
  | .error m => ⟨.error, [], some (m.getD "Failed to load images")⟩

/-- C1: if the readback or the metadata insert fails after a successful blob
upload, the handler invokes `delete` on the attempt's key exactly once,
propagates an error, persists no metadata row, and (when the delete succeeds)
leaves the object store without the blob. -/
theorem no_orphan_after_rollback (env : Env) (img : FileInput) (now : Nat)
    (hput : env.putOk = true)
    (hfail : env.fetchResult = .error () ∨ env.fetchResult = .ok false ∨
      env.insertResult = .error () ∨ env.insertResult = .ok false) :
    (action env (some img) now).2.deleteCalls = [mkKey now img.name] ∧
    (∃ e, (action env (some img) now).1 = .error e) ∧
    (action env (some img) now).2.db = [] ∧
    (env.deleteOk = true →
      mkKey now img.name ∉ (action env (some img) now).2.store) := by
  obtain ⟨p, f, a, i, dl, b⟩ := env
  simp only at hput hfail
  subst hput
  match f, i, hfail with
  | .error u, _, _ =>
    cases u
    cases dl <;> simp [action, runDelete, St.empty]
  | .ok false, _, _ =>
    cases dl <;> simp [action, runDelete, St.empty]
  | .ok true, .error u, _ =>
    cases u
    cases dl <;> cases a <;> simp [action, runDelete, St.empty]
  | .ok true, .ok false, _ =>
    cases dl <;> cases a <;> simp [action, runDelete, St.empty]
  | .ok true, .ok true, h =>
    simp at h

/-- C1 witness at a concrete environment and input. -/
theorem no_orphan_after_rollback_witness :
    (action ⟨true, .ok true, .ok "a dog", .ok false, true, "https://pub"⟩
        (some ⟨"cat.png", "image/png", [1, 2]⟩) 5).2.deleteCalls =
      [mkKey 5 "cat.png"] ∧
    (∃ e, (action ⟨true, .ok true, .ok "a dog", .ok false, true, "https://pub"⟩
        (some ⟨"cat.png", "image/png", [1, 2]⟩) 5).1 = .error e) ∧
    (action ⟨true, .ok true, .ok "a dog", .ok false, true, "https://pub"⟩
        (some ⟨"cat.png", "image/png", [1, 2]⟩) 5).2.db = [] ∧
    (true = true →
      mkKey 5 "cat.png" ∉ (action ⟨true, .ok true, .ok "a dog", .ok false, true,
        "https://pub"⟩ (some ⟨"cat.png", "image/png", [1, 2]⟩) 5).2.store) :=
  no_orphan_after_rollback ⟨true, .ok true, .ok "a dog", .ok false, true,
    "https://pub"⟩ ⟨"cat.png", "image/png", [1, 2]⟩ 5 rfl (by simp)

/-- C2 counterexample: with a failing `put` (and everything else succeeding),
`delete` is nevertheless invoked — `key` is assigned before `R2.put`, so the
catch block's `if (key)` guard is satisfied. -/
theorem delete_called_on_put_failure :
    (action ⟨false, .ok true, .ok "a dog", .ok true, true, "https://pub"⟩
      (some ⟨"cat.png", "image/png", [1, 2]⟩) 5).2.deleteCalls ≠ [] := by
  decide

/-- C2 amended: when `put` fails, the handler reports the upload error and
does invoke `delete` — exactly once, on the attempt's (never-written) key;
`delete` is skipped only when the failure precedes the key assignment. -/
theorem put_failure_still_deletes (env : Env) (img : FileInput) (now : Nat)
    (hput : env.putOk = false) :
    (action env (some img) now).1 = .error .putFailed ∧
    (action env (some img) now).2.deleteCalls = [mkKey now img.name] := by
  obtain ⟨p, f, a, i, dl, b⟩ := env
  simp only at hput
  subst hput
  cases dl <;> simp [action, runDelete, St.empty]

/-- C2 amended witness at a concrete environment and input. -/
theorem put_failure_still_deletes_witness :
    (action ⟨false, .ok true, .ok "a dog", .ok true, true, "https://pub"⟩
      (some ⟨"dog.png", "image/png", [3]⟩) 7).1 = .error .putFailed ∧
    (action ⟨false, .ok true, .ok "a dog", .ok true, true, "https://pub"⟩
      (some ⟨"dog.png", "image/png", [3]⟩) 7).2.deleteCalls = [mkKey 7 "dog.png"] :=
  put_failure_still_deletes ⟨false, .ok true, .ok "a dog", .ok true, true,
    "https://pub"⟩ ⟨"dog.png", "image/png", [3]⟩ 7 rfl

/-- C3 counterexample: an input whose filename and byte content are both
empty is not rejected — a store key is generated and `put` is invoked. -/
theorem empty_input_not_rejected :
    (action ⟨true, .ok true, .ok "a dog", .ok true, true, "https://pub"⟩
      (some ⟨"", "image/png", []⟩) 5).2.putCalls ≠ [] := by
  decide

/-- C3 amended: only a missing file is rejected before any side effect (the
`image.name` access throws before the key is assigned, so the trace is empty);
any present file — even with empty filename or empty bytes — gets a key and is
uploaded. -/
theorem only_missing_file_rejected (env : Env) (now : Nat) (img : FileInput) :
    action env none now = (.error .missingFile, St.empty) ∧
    (action env (some img) now).2.putCalls = [mkKey now img.name] := by
  obtain ⟨p, f, a, i, dl, b⟩ := env
  constructor
  · rfl
  · cases p <;> cases f with
    | error u => cases dl <;> simp [action, runDelete, St.empty]
    | ok fb =>
      cases fb <;> cases i <;> cases a <;> cases dl <;>
        simp [action, runDelete, St.empty] <;>
        (try rename_i ib _) <;> (try cases ib) <;>
        simp [action, runDelete, St.empty]

/-- C4: when the AI description call fails but everything else succeeds, the
handler still inserts the metadata row, with the sentinel description
`"Description unavailable"`, performs no compensation, and returns success. -/
theorem ai_failure_degrades_to_sentinel (env : Env) (img : FileInput) (now : Nat)
    (hput : env.putOk = true) (hfetch : env.fetchResult = .ok true)
    (hai : env.aiResult = .error ()) (hins : env.insertResult = .ok true) :
    (action env (some img) now).1 = .ok () ∧
    (action env (some img) now).2.insertCalls =
      [(env.publicBase ++ "/" ++ mkKey now img.name, img.name,
        "Description unavailable")] ∧
    (action env (some img) now).2.deleteCalls = [] := by
  obtain ⟨p, f, a, i, dl, b⟩ := env
  simp only at hput hfetch hai hins
  subst hput hfetch hai hins
  simp [action, runDelete, St.empty]

/-- C4 witness at a concrete environment and input. -/
theorem ai_failure_degrades_to_sentinel_witness :
    (action ⟨true, .ok true, .error (), .ok true, true, "https://pub"⟩
      (some ⟨"cat.png", "image/png", [1]⟩) 5).1 = .ok () ∧
    (action ⟨true, .ok true, .error (), .ok true, true, "https://pub"⟩
      (some ⟨"cat.png", "image/png", [1]⟩) 5).2.insertCalls =
      [("https://pub" ++ "/" ++ mkKey 5 "cat.png", "cat.png",
        "Description unavailable")] ∧
    (action ⟨true, .ok true, .error (), .ok true, true, "https://pub"⟩
      (some ⟨"cat.png", "image/png", [1]⟩) 5).2.deleteCalls = [] :=
  ai_failure_degrades_to_sentinel ⟨true, .ok true, .error (), .ok true, true,
    "https://pub"⟩ ⟨"cat.png", "image/png", [1]⟩ 5 rfl rfl rfl rfl

/-- C5: when the insert reports a soft non-success (`success = false`), the
handler invokes `delete` exactly once on the attempt's key and returns the
persistence error, exactly as for a thrown insert failure. -/
theorem soft_insert_failure_compensates (env : Env) (img : FileInput) (now : Nat)
    (hput : env.putOk = true) (hfetch : env.fetchResult = .ok true)
    (hins : env.insertResult = .ok false) :
    (action env (some img) now).1 = .error .insertFailed ∧
    (action env (some img) now).2.deleteCalls = [mkKey now img.name] := by
  obtain ⟨p, f, a, i, dl, b⟩ := env
  simp only at hput hfetch hins
  subst hput hfetch hins
  cases dl <;> cases a <;> simp [action, runDelete, St.empty]

/-- C5 witness at a concrete environment and input. -/
theorem soft_insert_failure_compensates_witness :
    (action ⟨true, .ok true, .ok "a dog", .ok false, true, "https://pub"⟩
      (some ⟨"cat.png", "image/png", [1]⟩) 5).1 = .error .insertFailed ∧
    (action ⟨true, .ok true, .ok "a dog", .ok false, true, "https://pub"⟩
      (some ⟨"cat.png", "image/png", [1]⟩) 5).2.deleteCalls = [mkKey 5 "cat.png"] :=
  soft_insert_failure_compensates ⟨true, .ok true, .ok "a dog", .ok false, true,
    "https://pub"⟩ ⟨"cat.png", "image/png", [1]⟩ 5 rfl rfl rfl

/-- C6: the result the caller sees never depends on whether the compensating
`delete` succeeds — the rollback's own failure is swallowed and the original
error always wins (no delete-failure error can reach the caller). -/
theorem delete_failure_swallowed (env : Env) (input : Option FileInput)
    (now : Nat) (d : Bool) :
    (action { env with deleteOk := d } input now).1 = (action env input now).1 := by
  obtain ⟨p, f, a, i, dl, b⟩ := env
  cases input with
  | none => rfl
  | some img =>
    cases p <;> cases f with
    | error u => cases d <;> cases dl <;> simp [action, runDelete, St.empty]
    | ok fb =>
      cases fb <;> cases i <;> cases a <;> cases d <;> cases dl <;>
        simp [action, runDelete, St.empty] <;>
        (try rename_i ib _) <;> (try cases ib) <;>
        simp [action, runDelete, St.empty]

theorem ofDigits_append_digit (l : List Nat) (d : Nat) :
    ofDigits (l ++ [d]) = 10 * ofDigits l + d := by
  simp [ofDigits, List.foldl_append]

theorem ofDigits_decDigits : ∀ n, ofDigits (decDigits n) = n := by
  intro n
  induction n using Nat.strong_induction_on with
  | _ n ih =>
    match n with
    | 0 => simp [decDigits, ofDigits]
    | m + 1 =>
      rw [decDigits, ofDigits_append_digit,
        ih ((m + 1) / 10) (Nat.div_lt_self (Nat.succ_pos m) (by decide))]
      exact Nat.div_add_mod (m + 1) 10

theorem decDigits_lt : ∀ n, ∀ d ∈ decDigits n, d < 10 := by
  intro n
  induction n using Nat.strong_induction_on with
  | _ n ih =>
    match n with
    | 0 => intro d hd; simp [decDigits] at hd
    | m + 1 =>
      intro d hd
      rw [decDigits] at hd
      rcases List.mem_append.1 hd with h | h
      · exact ih ((m + 1) / 10) (Nat.div_lt_self (Nat.succ_pos m) (by decide)) d h
      · rw [List.mem_singleton.1 h]
        exact Nat.mod_lt _ (by decide)

theorem digitChar_inj_lt : ∀ a, a < 10 → ∀ b, b < 10 →
    Nat.digitChar a = Nat.digitChar b → a = b := by decide

theorem map_digitChar_inj : ∀ l1 l2 : List Nat, (∀ d ∈ l1, d < 10) →
    (∀ d ∈ l2, d < 10) → l1.map Nat.digitChar = l2.map Nat.digitChar →
    l1 = l2 := by
  intro l1
  induction l1 with
  | nil =>
    intro l2 _ _ h
    cases l2 with
    | nil => rfl
    | cons b l2' => simp at h
  | cons a l ih =>
    intro l2 h1 h2 h
    cases l2 with
    | nil => simp at h
    | cons b l2' =>
      simp only [List.map_cons, List.cons.injEq] at h
      have ha : a = b :=
        digitChar_inj_lt a (h1 a (by simp)) b (h2 b (by simp)) h.1
      rw [ha, ih l2' (fun d hd => h1 d (by simp [hd]))
        (fun d hd => h2 d (by simp [hd])) h.2]

theorem natToString_data_inj (m n : Nat)
    (h : (natToString m).data = (natToString n).data) : m = n := by
  match m, n with
  | 0, 0 => rfl
  | 0, k + 1 =>
    simp only [natToString, if_pos rfl, Nat.succ_ne_zero, if_neg] at h
    have h0 : List.map Nat.digitChar [0] = List.map Nat.digitChar (decDigits (k + 1)) := h
    have := congrArg ofDigits (map_digitChar_inj [0] (decDigits (k + 1))
      (by decide) (decDigits_lt (k + 1)) h0)
    rw [ofDigits_decDigits] at this
    exact absurd this.symm (Nat.succ_ne_zero k)
  | j + 1, 0 =>
    simp only [natToString, if_pos rfl, Nat.succ_ne_zero, if_neg] at h
    have h0 : List.map Nat.digitChar (decDigits (j + 1)) = List.map Nat.digitChar [0] := h
    have := congrArg ofDigits (map_digitChar_inj (decDigits (j + 1)) [0]
      (decDigits_lt (j + 1)) (by decide) h0)
    rw [ofDigits_decDigits] at this
    exact absurd this (Nat.succ_ne_zero j)
  | j + 1, k + 1 =>
    simp only [natToString, Nat.succ_ne_zero, if_neg] at h
    have := congrArg ofDigits (map_digitChar_inj (decDigits (j + 1)) (decDigits (k + 1))
      (decDigits_lt (j + 1)) (decDigits_lt (k + 1)) h)
    rwa [ofDigits_decDigits, ofDigits_decDigits] at this

/-- C7: the store key is `"images/"` followed by the decimal timestamp, a
hyphen, and the whitespace-sanitized filename; distinct timestamps with the
same filename always yield distinct keys. -/
theorem key_shape_and_uniqueness :
    (∀ t f, mkKey t f = "images/" ++ natToString t ++ "-" ++ sanitize f) ∧
    (∀ t1 t2 f, t1 ≠ t2 → mkKey t1 f ≠ mkKey t2 f) := by
  refine ⟨fun t f => rfl, fun t1 t2 f hne he => hne ?_⟩
  apply natToString_data_inj
  have hd := congrArg String.data he
  simp only [mkKey, String.data_append, List.append_assoc] at hd
  exact List.append_cancel_right (List.append_cancel_left hd)

/-- C7 witness: concrete timestamps 1 and 2 with the same filename. -/
theorem key_uniqueness_witness : mkKey 1 "cat.png" ≠ mkKey 2 "cat.png" :=
  key_shape_and_uniqueness.2 1 2 "cat.png" (by decide)

/-- C9: when the read underlying the listing fails, the loader returns a
degraded result: error status, empty image list, and a message (the error's
own message when it was an `Error`, a fixed fallback otherwise). -/
theorem read_failure_degrades (m : Option String) :
    loader (.error m) = ⟨.error, [], some (m.getD "Failed to load images")⟩ :=
  rfl

/-- C8: the listing query returns all rows, sorted by `created_at`
descending; when the rows were inserted with strictly increasing timestamps
the returned sequence is strictly descending. -/
theorem listing_order (db : List Image) :
    (listAll db).Perm db ∧
    List.Pairwise (fun a b : Image => b.created_at ≤ a.created_at) (listAll db) ∧
    (List.Pairwise (fun a b : Image => a.created_at < b.created_at) db →
      List.Pairwise (fun a b : Image => b.created_at < a.created_at) (listAll db)) := by
  have hperm : (listAll db).Perm db := List.perm_insertionSort _ db
  haveI : IsTotal Image (fun a b : Image => b.created_at ≤ a.created_at) :=
    ⟨fun a b => Nat.le_total b.created_at a.created_at⟩
  haveI : IsTrans Image (fun a b : Image => b.created_at ≤ a.created_at) :=
    ⟨fun _ _ _ hab hbc => Nat.le_trans hbc hab⟩
  have hsorted :
      List.Pairwise (fun a b : Image => b.created_at ≤ a.created_at) (listAll db) :=
    List.sorted_insertionSort _ db
  refine ⟨hperm, hsorted, fun hlt => ?_⟩
  have hnd : (db.map Image.created_at).Nodup :=
    List.pairwise_map.2 (hlt.imp Nat.ne_of_lt)
  have hnd' : ((listAll db).map Image.created_at).Nodup :=
    ((hperm.map Image.created_at).nodup_iff).2 hnd
  have hne : List.Pairwise
      (fun a b : Image => a.created_at ≠ b.created_at) (listAll db) :=
    List.pairwise_map.1 hnd'
  exact (hsorted.and hne).imp fun h => Nat.lt_of_le_of_ne h.1 (Ne.symm h.2)

/-- C8 witness: two rows with increasing timestamps come back strictly
newest-first. -/
theorem listing_order_witness :
    List.Pairwise (fun a b : Image => b.created_at < a.created_at)
      (listAll [⟨1, "u1", "a.png", none, 10⟩, ⟨2, "u2", "b.png", some "d", 20⟩]) :=
  (listing_order [⟨1, "u1", "a.png", none, 10⟩, ⟨2, "u2", "b.png", some "d", 20⟩]).2.2
    (by decide)

theorem sanitizeChars_cons_ws {c : Char} (h : isWs c = true) (cs : List Char) :
    sanitizeChars (c :: cs) = '-' :: sanitizeChars (cs.dropWhile isWs) := by
  simp [sanitizeChars, h]

theorem sanitizeChars_cons_not_ws {c : Char} (h : isWs c = false) (cs : List Char) :
    sanitizeChars (c :: cs) = c :: sanitizeChars cs := by
  simp [sanitizeChars, h]

theorem WsEquiv.sanitizeChars_eq {s t : List Char} (h : WsEquiv s t) :
    sanitizeChars s = sanitizeChars t ∧
    sanitizeChars (s.dropWhile isWs) = sanitizeChars (t.dropWhile isWs) := by
  induction h with
  | nil => exact ⟨rfl, rfl⟩
  | @cons c s t hc _ ih =>
    have ha : sanitizeChars (c :: s) = sanitizeChars (c :: t) := by
      rw [sanitizeChars_cons_not_ws hc, sanitizeChars_cons_not_ws hc, ih.1]
    refine ⟨ha, ?_⟩
    rw [List.dropWhile_cons_of_neg (by simp [hc]),
      List.dropWhile_cons_of_neg (by simp [hc])]
    exact ha
  | @run u v s t hu hv hus hvs _ ih =>
    obtain ⟨c, u', rfl⟩ : ∃ c u', u = c :: u' := by
      cases u with
      | nil => exact absurd rfl hu
      | cons c u' => exact ⟨c, u', rfl⟩
    obtain ⟨d, v', rfl⟩ : ∃ d v', v = d :: v' := by
      cases v with
      | nil => exact absurd rfl hv
      | cons d v' => exact ⟨d, v', rfl⟩
    have ha : sanitizeChars ((c :: u') ++ s) = sanitizeChars ((d :: v') ++ t) := by
      rw [List.cons_append, List.cons_append,
        sanitizeChars_cons_ws (hus c (by simp)),
        sanitizeChars_cons_ws (hvs d (by simp)),
        List.dropWhile_append_of_pos (fun a ha => hus a (by simp [ha])),
        List.dropWhile_append_of_pos (fun a ha => hvs a (by simp [ha])), ih.2]
    refine ⟨ha, ?_⟩
    rw [List.dropWhile_append_of_pos hus, List.dropWhile_append_of_pos hvs, ih.2]

/-- C10: the filename sanitization collapses every maximal run of whitespace
characters (of any kind and length) to a single hyphen, so filenames that
differ only inside their whitespace runs yield the same store key at the same
timestamp. -/
theorem sanitize_collapses_ws_runs (now : Nat) (f g : String)
    (h : WsEquiv f.data g.data) : mkKey now f = mkKey now g := by
  have hs : sanitize f = sanitize g := String.ext h.sanitizeChars_eq.1
  rw [mkKey, mkKey, hs]

/-- C10 witness: a filename with a space-tab-newline run and one with a
single space (distinct strings) produce the same key. -/
theorem sanitize_collapses_ws_runs_witness :
    mkKey 7 "a \t\nb" = mkKey 7 "a b" :=
  sanitize_collapses_ws_runs 7 "a \t\nb" "a b"
    (WsEquiv.cons (by decide)
      (WsEquiv.run [' ', '\t', '\n'] [' '] (by decide) (by decide)
        (by decide) (by decide) (WsEquiv.cons (by decide) WsEquiv.nil)))

end R2Demo
